import Mathlib

/-!
# Verification of the command-line resolution core (`rekall/args.py`)

This file gives a shallow embedding of the command-line parsing module of the
rekall repository (`src/rekall/args.py`) and settles a list of claims about it.

Conventions:
* Python strings are modelled as `String` / `List Char`.
* Fallible Python code (raising `argparse.ArgumentError`) is modelled with
  `Except String`.
* The external collaborators (argparse internals, `os.path`, `zipfile`,
  `sys.path`, the session object) are modelled at their interfaces, exactly as
  the source uses them.
-/

/-! ## Value coercers: `IntParser.parse_int`

The source uses `re.search("(.*)(mb|kb|m|k)", value)`.  CPython `re.search`
semantics for this pattern: the match always starts at position 0 when it
exists (the leading `(.*)` is unbounded), `(.*)` is greedy so backtracking
tries the *largest* split position first, and at a fixed position the
alternatives are tried in the written order `mb`, `kb`, `m`, `k`.  There is no
trailing anchor, so characters after the matched suffix are simply not part of
the match.  Matching is case-sensitive (no `re.IGNORECASE` flag is passed).
-/

/-- One attempt of the alternation `mb|kb|m|k` at a fixed position (the
alternatives are tried in the order they are written in the pattern). -/
def matchSuffixAt (post : List Char) : Option (List Char) :=
  if post.take 2 = ['m', 'b'] then some ['m', 'b']
  else if post.take 2 = ['k', 'b'] then some ['k', 'b']
  else if post.take 1 = ['m'] then some ['m']
  else if post.take 1 = ['k'] then some ['k']
  else none

/-- Backtracking of the greedy `(.*)`: try split position `i` first, then
`i-1`, ... down to `0`.  Returns `(group 1, group 2)` of the Python match. -/
def findSuffixFrom (s : List Char) : Nat → Option (List Char × List Char)
  | 0 => (matchSuffixAt s).map (fun suf => (([] : List Char), suf))
  | i + 1 =>
    match matchSuffixAt (s.drop (i + 1)) with
    | some suf => some (s.take (i + 1), suf)
    | none => findSuffixFrom s i

/-- Model of `re.search("(.*)(mb|kb|m|k)", value)`: the greedy leftmost match,
as `some (group 1, group 2)`, or `none` when the pattern does not occur. -/
def re_search_suffix (s : List Char) : Option (List Char × List Char) :=
  findSuffixFrom s s.length

/-- A decimal digit of Python `int(value)`. -/
def decDigit (c : Char) : Option Nat :=
  if c.isDigit then some (c.toNat - 48) else none

/-- A hexadecimal digit of Python `int(value, 16)`. -/
def hexDigit (c : Char) : Option Nat :=
  if c.isDigit then some (c.toNat - 48)
  else if 'a' ≤ c ∧ c ≤ 'f' then some (c.toNat - 87)
  else if 'A' ≤ c ∧ c ≤ 'F' then some (c.toNat - 55)
  else none

/-- Value of a non-empty digit string in the given base; `none` on a malformed
or empty digit string. -/
def digitsVal (dig : Char → Option Nat) (base : Nat) (l : List Char) : Option Nat :=
  if l = [] then none
  else l.foldl (fun acc c => acc.bind (fun a => (dig c).map (fun d => a * base + d))) (some 0)

/-- Strip leading and trailing whitespace (Python `int` accepts it). -/
def trimChars (l : List Char) : List Char :=
  ((l.dropWhile Char.isWhitespace).reverse.dropWhile Char.isWhitespace).reverse

/-- Python `int(value)` (base 10): optional surrounding whitespace, optional
sign, then a non-empty run of decimal digits. -/
def pyInt10 (l : List Char) : Option Int :=
  match trimChars l with
  | '-' :: r => (digitsVal decDigit 10 r).map (fun n => -(n : Int))
  | '+' :: r => (digitsVal decDigit 10 r).map (fun n => (n : Int))
  | r => (digitsVal decDigit 10 r).map (fun n => (n : Int))

/-- Python `int(value, 16)` accepts an optional `0x`/`0X` prefix. -/
def hexBody (l : List Char) : List Char :=
  if l.take 2 = ['0', 'x'] ∨ l.take 2 = ['0', 'X'] then l.drop 2 else l

/-- Python `int(value, 16)`: optional whitespace, optional sign, optional
`0x`/`0X` prefix, then a non-empty run of hex digits. -/
def pyInt16 (l : List Char) : Option Int :=
  match trimChars l with
  | '-' :: r => (digitsVal hexDigit 16 (hexBody r)).map (fun n => -(n : Int))
  | '+' :: r => (digitsVal hexDigit 16 (hexBody r)).map (fun n => (n : Int))
  | r => (digitsVal hexDigit 16 (hexBody r)).map (fun n => (n : Int))

/-- The numeric-conversion tail of `IntParser.parse_int`: after the suffix
handling, `value` is interpreted in hex when it starts with `0x`, else in
decimal, and multiplied by the suffix multiplier; a `ValueError` becomes
`argparse.ArgumentError(self, "Invalid integer value")`. -/
def parse_int_tail (value : List Char) (multiplier : Int) : Except String Int :=
  if value.take 2 = ['0', 'x'] then
    match pyInt16 value with
    | some n => .ok (n * multiplier)
    | none => .error "Invalid integer value"
  else
    match pyInt10 value with
    | some n => .ok (n * multiplier)
    | none => .error "Invalid integer value"

/-- `IntParser.parse_int` (src/rekall/args.py:56-76) on a character list:
search for a magnitude suffix, lower-case group 2, pick the multiplier
(`mb`/`m` ↦ 1024², `kb`/`k` ↦ 1024), then convert group 1 numerically. -/
def parse_int_chars (value : List Char) : Except String Int :=
  match re_search_suffix value with
  | some (pre, suf) =>
    let suffix := suf.map Char.toLower
    let multiplier : Int :=
      if suffix = ['m', 'b'] ∨ suffix = ['m'] then 1024 * 1024
      else if suffix = ['k', 'b'] ∨ suffix = ['k'] then 1024
      else 1
    parse_int_tail pre multiplier
  | none => parse_int_tail value 1

/-- `IntParser.parse_int` on a Python string. -/
def IntParser.parse_int (value : String) : Except String Int :=
  parse_int_chars value.toList

/-- C3: `parse_int("0x10") == 16`, `parse_int("4k") == 4096`,
`parse_int("1mb") == 1048576`, and `parse_int("abc")` fails with the coercion
error `"Invalid integer value"` instead of returning a value. -/
theorem claim_C3 :
    IntParser.parse_int "0x10" = .ok 16
    ∧ IntParser.parse_int "4k" = .ok 4096
    ∧ IntParser.parse_int "1mb" = .ok 1048576
    ∧ IntParser.parse_int "abc" = .error "Invalid integer value" :=
  ⟨rfl, rfl, rfl, rfl⟩

/-- C2: evaluation of `IntParser.parse_int` at upper-case suffix tokens.  The
regex `"(.*)(mb|kb|m|k)"` is compiled without `re.IGNORECASE`, so the
upper-case forms `"4K"` and `"1MB"` never match the suffix group and fall
through to `int(...)`, which raises — while the lower-case forms succeed.
This contradicts the claimed case-insensitivity (`.lower()` is applied to the
matched suffix, which is meaningful only under case-insensitive matching, so
the missing flag is taken to be the slip). -/
theorem claim_C2 :
    IntParser.parse_int "4K" = .error "Invalid integer value"
    ∧ IntParser.parse_int "1MB" = .error "Invalid integer value"
    ∧ IntParser.parse_int "4k" = .ok 4096
    ∧ IntParser.parse_int "1mb" = .ok 1048576 :=
  ⟨rfl, rfl, rfl, rfl⟩

/-! ## Lemmas about the greedy suffix search (for claim C10) -/

/-- Python `value.split(",")` on a character list. -/
def split_comma : List Char → List (List Char)
  | [] => [[]]
  | c :: rest =>
    if c = ',' then [] :: split_comma rest
    else
      match split_comma rest with
      | [] => [[c]]
      | t :: ts => (c :: t) :: ts

/-- The inverse construction used to state the single-token/multi-token
equivalence: write the sub-tokens as one comma-separated token. -/
def join_comma : List (List Char) → List Char
  | [] => []
  | [t] => t
  | t :: t2 :: ts => t ++ ',' :: join_comma (t2 :: ts)

/-- The list comprehension `[self.parse_int(x) for x in ...]`: coerce every
element, propagating the first failure. -/
def mapExcept (f : α → Except ε β) : List α → Except ε (List β)
  | [] => .ok []
  | a :: as =>
    match f a with
    | .error e => .error e
    | .ok b =>
      match mapExcept f as with
      | .error e => .error e
      | .ok bs => .ok (b :: bs)

/-- The loop of `ArrayIntParser.__call__`: `result` starts as `[]` and is
extended with the coerced sub-tokens of every token in order. -/
def ArrayIntParser.callFrom (acc : List Int) : List (List Char) → Except String (List Int)
  | [] => .ok acc
  | v :: vs =>
    match mapExcept parse_int_chars (split_comma v) with
    | .error e => .error e
    | .ok xs => ArrayIntParser.callFrom (acc ++ xs) vs

/-- `ArrayIntParser.__call__` on a list of tokens (the value stored into the
namespace). -/
def ArrayIntParser.call (values : List (List Char)) : Except String (List Int) :=
  ArrayIntParser.callFrom [] values

/-- `ArrayIntParser.__call__` on a list of Python strings. -/
def ArrayIntParser.callS (values : List String) : Except String (List Int) :=
  ArrayIntParser.call (values.map String.toList)

theorem split_comma_no_comma : ∀ {t : List Char}, ',' ∉ t → split_comma t = [t] := by
  intro t
  induction t with
  | nil => intro _; rfl
  | cons c rest ih =>
    intro h
    have hc : c ≠ ',' := fun hcc => h (hcc ▸ List.mem_cons_self c rest)
    have hr : ',' ∉ rest := fun hm => h (List.mem_cons_of_mem c hm)
    simp [split_comma, hc, ih hr]

theorem split_comma_append : ∀ (t : List Char), ',' ∉ t → ∀ (r : List Char),
    split_comma (t ++ ',' :: r) = t :: split_comma r := by
  intro t
  induction t with
  | nil => intro _ r; simp [split_comma]
  | cons c rest ih =>
    intro h r
    have hc : c ≠ ',' := fun hcc => h (hcc ▸ List.mem_cons_self c rest)
    have hr : ',' ∉ rest := fun hm => h (List.mem_cons_of_mem c hm)
    simp [split_comma, hc, ih hr r]

theorem split_join : ∀ (ts : List (List Char)), ts ≠ [] → (∀ t ∈ ts, ',' ∉ t) →
    split_comma (join_comma ts) = ts := by
  intro ts
  induction ts with
  | nil => intro h _; exact absurd rfl h
  | cons t rest ih =>
    intro _ hall
    cases rest with
    | nil => simp [join_comma, split_comma_no_comma (hall t (List.mem_cons_self t []))]
    | cons t2 ts2 =>
      have e : join_comma (t :: t2 :: ts2) = t ++ ',' :: join_comma (t2 :: ts2) := rfl
      rw [e, split_comma_append t (hall t (List.mem_cons_self _ _)) _,
        ih (by simp) (fun x hx => hall x (List.mem_cons_of_mem _ hx))]

theorem flatten_split_no_comma : ∀ (ts : List (List Char)), (∀ t ∈ ts, ',' ∉ t) →
    (ts.map split_comma).flatten = ts := by
  intro ts
  induction ts with
  | nil => intro _; rfl
  | cons t rest ih =>
    intro h
    simp only [List.map_cons, List.flatten_cons]
    rw [split_comma_no_comma (h t (List.mem_cons_self _ _)),
      ih (fun x hx => h x (List.mem_cons_of_mem _ hx))]
    rfl

theorem mapExcept_append (f : α → Except ε β) (l₁ l₂ : List α) :
    mapExcept f (l₁ ++ l₂) =
      match mapExcept f l₁ with
      | .error e => .error e
      | .ok b₁ =>
        match mapExcept f l₂ with
        | .error e => .error e
        | .ok b₂ => .ok (b₁ ++ b₂) := by
  induction l₁ with
  | nil =>
    cases h : mapExcept f l₂ <;> simp [mapExcept, h]
  | cons a as ih =>
    simp only [List.cons_append, mapExcept]
    cases f a with
    | error e => rfl
    | ok b =>
      simp only [List.append_eq]
      rw [ih]
      cases h1 : mapExcept f as with
      | error e => rfl
      | ok bs =>
        cases h2 : mapExcept f l₂ with
        | error e => rfl
        | ok b2 => simp

theorem callFrom_eq (vs : List (List Char)) : ∀ acc,
    ArrayIntParser.callFrom acc vs =
      match mapExcept parse_int_chars ((vs.map split_comma).flatten) with
      | .error e => .error e
      | .ok xs => .ok (acc ++ xs) := by
  induction vs with
  | nil => intro acc; simp [ArrayIntParser.callFrom, mapExcept]
  | cons v vs ih =>
    intro acc
    simp only [List.map_cons, List.flatten_cons]
    rw [mapExcept_append]
    cases h1 : mapExcept parse_int_chars (split_comma v) with
    | error e => simp [ArrayIntParser.callFrom, h1]
    | ok xs =>
      simp only [ArrayIntParser.callFrom, h1]
      rw [ih (acc ++ xs)]
      cases h2 : mapExcept parse_int_chars ((vs.map split_comma).flatten) with
      | error e => rfl
      | ok ys => simp

/-- C4: the single comma-separated token form and the separate-tokens form of
`ArrayIntParser` are equivalent (for comma-free sub-tokens), the two forms may
be mixed, each sub-token is coerced by `parse_int` with order preserved (the
result is exactly the ordered coercion of the comma-split concatenation of the
tokens), `["1,2,3"]` and `["1","2","3"]` both yield `[1,2,3]`, and an empty
token list yields an empty result list. -/
theorem claim_C4 (ts : List (List Char)) (h1 : ts ≠ []) (h2 : ∀ t ∈ ts, ',' ∉ t) :
    ArrayIntParser.call [join_comma ts] = ArrayIntParser.call ts
    ∧ (∀ vs, ArrayIntParser.call vs = mapExcept parse_int_chars ((vs.map split_comma).flatten))
    ∧ ArrayIntParser.callS ["1,2,3"] = .ok [1, 2, 3]
    ∧ ArrayIntParser.callS ["1", "2", "3"] = .ok [1, 2, 3]
    ∧ ArrayIntParser.callS ["1,2", "3"] = .ok [1, 2, 3]
    ∧ ArrayIntParser.callS [] = .ok [] := by
  have hgen : ∀ vs, ArrayIntParser.call vs =
      mapExcept parse_int_chars ((vs.map split_comma).flatten) := by
    intro vs
    unfold ArrayIntParser.call
    rw [callFrom_eq vs []]
    cases h : mapExcept parse_int_chars ((vs.map split_comma).flatten) with
    | error e => rfl
    | ok xs => simp
  refine ⟨?_, hgen, rfl, rfl, rfl, rfl⟩
  rw [hgen, hgen]
  simp only [List.map_cons, List.map_nil, List.flatten_cons, List.flatten_nil, List.append_nil]
  rw [split_join ts h1 h2, flatten_split_no_comma ts h2]

/-- C4 witness: the equivalence and the concrete example at `["1","2","3"]`. -/
theorem claim_C4_witness :
    ArrayIntParser.call [join_comma [['1'], ['2'], ['3']]] = ArrayIntParser.call [['1'], ['2'], ['3']]
    ∧ ArrayIntParser.callS ["1,2,3"] = .ok [1, 2, 3] :=
  ⟨(claim_C4 [['1'], ['2'], ['3']] (by decide) (by decide)).1,
   (claim_C4 [['1'], ['2'], ['3']] (by decide) (by decide)).2.2.1⟩

/-! ## `RekallArgParser.error` (src/rekall/args.py:147-166)

`error` returns (swallows the failure) when `self.ignore_errors` is set, and
*also* returns whenever the message is exactly `"too few arguments"` — that
second check is reached in strict mode too.  Otherwise it defers to
`argparse.ArgumentParser.error`, which prints usage and exits (modelled as
`raised`).  `parse_known_args(force=...)` sets `self.ignore_errors = force`. -/

inductive ParserErrorOutcome
  | swallowed
  | raised
deriving DecidableEq

/-- `RekallArgParser.error(self, message)` with `self.ignore_errors` made an
explicit argument. -/
def RekallArgParser.error (ignore_errors : Bool) (message : String) : ParserErrorOutcome :=
  if ignore_errors then .swallowed
  else if message = "too few arguments" then .swallowed
  else .raised

/-- `parse_known_args` sets `self.ignore_errors = force`; `force=False` is the
strict mode, `force=True` the tolerant/forced mode. -/
def RekallArgParser.parse_known_args_mode (force : Bool) : Bool := force

/-- C1 counterexample: with the controller in strict mode (`force=False`, so
`ignore_errors=False`), a parse failure with the literal message
`"too few arguments"` is still swallowed, contradicting the claim that the
suppression applies only in the tolerant/forced mode. -/
theorem claim_C1_counterexample :
    RekallArgParser.error (RekallArgParser.parse_known_args_mode false) "too few arguments" =
      ParserErrorOutcome.swallowed := rfl

/-- C1 (amended): the suppression of the literal message
`"too few arguments"` is unconditional — it applies in strict mode exactly as
in the tolerant/forced mode; the tolerant mode additionally swallows every
message, and in strict mode any message other than `"too few arguments"` is
raised.  (The original claim restricted the suppression to the non-strict
mode; the counterexample shows the message check is independent of the
mode.) -/
theorem claim_C1 (force : Bool) (message : String) (h : message ≠ "too few arguments") :
    RekallArgParser.error (RekallArgParser.parse_known_args_mode force) "too few arguments" =
        ParserErrorOutcome.swallowed
    ∧ RekallArgParser.error false message = ParserErrorOutcome.raised
    ∧ RekallArgParser.error true message = ParserErrorOutcome.swallowed := by
  refine ⟨?_, ?_, rfl⟩
  · cases force <;> rfl
  · simp [RekallArgParser.error, h]

/-- C1 witness: in strict mode, an ordinary failure message is raised. -/
theorem claim_C1_witness :
    RekallArgParser.error false "unrecognized arguments" = ParserErrorOutcome.raised :=
  (claim_C1 false "unrecognized arguments" (by decide)).2.1

/-! ## Phase 1 session transaction (`LoadProfileIntoSession`, src/rekall/args.py:241-245)

The session state is the external collaborator SessionState — a key/value
store with `Set(key, value)`; we model it as `String → Option V`. -/

/-- `state.Set(arg, value)`: destructive write of one key. -/
def SessionState.Set {V : Type} (s : String → Option V) (k : String) (v : V) :
    String → Option V :=
  fun x => if x = k then some v else s x

/-- Modelled from the spec: `config.MergeConfigOptions` lives in
`rekall/config.py`, which is not under src/.  The spec (§4.2) says the merge
"writes every declared option's *current default* into the session state only
for keys not already present (non-destructive merge)". -/
def MergeConfigOptions {V : Type} (defaults : List (String × V)) (s : String → Option V) :
    String → Option V :=
  defaults.foldl
    (fun s kv =>
      match s kv.1 with
      | some _ => s
      | none => SessionState.Set s kv.1 kv.2) s

/-- The body of the scoped transaction in `LoadProfileIntoSession`: first
`config.MergeConfigOptions(state)`, then `state.Set(arg, value)` for every
parsed option. -/
def LoadProfileIntoSession.txnBody {V : Type} (defaults parsed : List (String × V))
    (s : String → Option V) : String → Option V :=
  parsed.foldl (fun s kv => SessionState.Set s kv.1 kv.2) (MergeConfigOptions defaults s)

theorem foldl_set_of_not_mem {V : Type} (l : List (String × V)) (k : String)
    (h : k ∉ l.map Prod.fst) : ∀ s0,
    (l.foldl (fun s kv => SessionState.Set s kv.1 kv.2) s0) k = s0 k := by
  induction l with
  | nil => intro s0; rfl
  | cons kv rest ih =>
    intro s0
    simp only [List.map_cons, List.mem_cons, not_or] at h
    rw [List.foldl_cons, ih h.2]
    unfold SessionState.Set
    rw [if_neg h.1]

theorem foldl_set_mem {V : Type} (l : List (String × V)) (k : String) (v : V)
    (hnd : (l.map Prod.fst).Nodup) (hm : (k, v) ∈ l) : ∀ s0,
    (l.foldl (fun s kv => SessionState.Set s kv.1 kv.2) s0) k = some v := by
  induction l with
  | nil => cases hm
  | cons kv rest ih =>
    intro s0
    have hnd' := List.nodup_cons.mp (show (kv.1 :: rest.map Prod.fst).Nodup from hnd)
    rw [List.foldl_cons]
    rcases List.mem_cons.mp hm with he | hm'
    · have hk1 : kv.1 = k := by rw [← he]
      have hnotin : k ∉ rest.map Prod.fst := by rw [← hk1]; exact hnd'.1
      rw [foldl_set_of_not_mem rest k hnotin]
      unfold SessionState.Set
      rw [hk1, if_pos rfl, ← he]
    · exact ih hnd'.2 hm' _

/-- C5: within the phase-1 transaction the registry defaults are merged first
and every parsed option value written afterwards, so for any option name the
parsed value — not the registry default — is what is visible in the session
state after the transaction body runs. -/
theorem claim_C5 {V : Type} (defaults parsed : List (String × V))
    (s : String → Option V) (k : String) (v : V)
    (hnd : (parsed.map Prod.fst).Nodup) (hm : (k, v) ∈ parsed) :
    LoadProfileIntoSession.txnBody defaults parsed s k = some v :=
  foldl_set_mem parsed k v hnd hm (MergeConfigOptions defaults s)

/-- C5 witness: a default and a parsed value for the same option name; the
parsed value wins. -/
theorem claim_C5_witness :
    LoadProfileIntoSession.txnBody [("output", (1 : Int))] [("output", 2)]
      (fun _ => none) "output" = some 2 :=
  claim_C5 [("output", 1)] [("output", 2)] (fun _ => none) "output" 2 (by decide) (by decide)

/-! ## Phase 2: the sub-command catalogue (`parse_args`, src/rekall/args.py:280-297)

A command class is used by the controller only through its `name`,
`is_active(session)` and `_interactive` attributes (plus `args`, invoked for
the first class of each name).  Python's `sorted(..., key=lambda x: x.name)`
is a *stable* sort by name; `List.insertionSort` is stable, and any two stable
sorts with the same key agree, so it models `sorted` faithfully. -/

structure Command (S : Type) where
  name : String
  is_active : S → Bool
  _interactive : Bool

/-- The `classes` list built at src/rekall/args.py:280-284: keep a command
class iff its name is truthy (non-empty), it is active for the session, and it
is not interactive. -/
def keptCommands {S : Type} (sess : S) (classes : List (Command S)) : List (Command S) :=
  classes.filter (fun cls => !(cls.name == "") && cls.is_active sess && ! cls._interactive)

/-- Comparison by name (the `key=lambda x: x.name` of the `sorted` call). -/
def nameLe {S : Type} (a b : Command S) : Prop := a.name ≤ b.name

instance {S : Type} : DecidableRel (@nameLe S) :=
  fun a b => inferInstanceAs (Decidable (a.name ≤ b.name))

instance {S : Type} : IsTotal (Command S) nameLe :=
  ⟨fun a b => le_total a.name b.name⟩

instance {S : Type} : IsTrans (Command S) nameLe :=
  ⟨fun _ _ _ hab hbc => le_trans hab hbc⟩

/-- `sorted(classes, key=lambda x: x.name)`. -/
def sortedKept {S : Type} (sess : S) (classes : List (Command S)) : List (Command S) :=
  List.insertionSort nameLe (keptCommands sess classes)

/-- The loop at src/rekall/args.py:286-297: `parsers` is a dict keyed by
command name; a class whose name is already present is skipped (the
`try/except KeyError` keeps only the first occurrence), otherwise a sub-parser
is created and `cls.args` invoked.  The returned list is, in order, the
classes for which a sub-parser was created and `args` was invoked. -/
def dedupByName {S : Type} : List (Command S) → List String → List (Command S)
  | [], _ => []
  | c :: cs, seen =>
    if c.name ∈ seen then dedupByName cs seen
    else c :: dedupByName cs (c.name :: seen)

/-- The classes that receive a sub-parser in phase 2, in creation order. -/
def subParserCommands {S : Type} (sess : S) (classes : List (Command S)) : List (Command S) :=
  dedupByName (sortedKept sess classes) []

/-- C6: every command enumerated for a sub-parser in phase 2 has a non-empty
name, is active for the current session, and is not interactive. -/
theorem claim_C6 {S : Type} (sess : S) (classes : List (Command S)) (c : Command S)
    (hmem : c ∈ keptCommands sess classes) :
    c.name ≠ "" ∧ c.is_active sess = true ∧ c._interactive = false := by
  have hb := (List.mem_filter.mp hmem).2
  simp only [Bool.and_eq_true, Bool.not_eq_true'] at hb
  exact ⟨ne_of_beq_false hb.1.1, hb.1.2, hb.2⟩

def cmdPslist : Command Unit := ⟨"pslist", fun _ => true, false⟩

def cmdPslist2 : Command Unit := ⟨"pslist", fun _ => !false, false⟩

def cmdVadmap : Command Unit := ⟨"vadmap", fun _ => true, false⟩

def cmdShell : Command Unit := ⟨"shell", fun _ => true, true⟩

/-- C6 witness: a concrete catalogue with an interactive command; the kept
command satisfies all three conditions. -/
theorem claim_C6_witness :
    cmdPslist.name ≠ "" ∧ cmdPslist.is_active () = true ∧ cmdPslist._interactive = false :=
  claim_C6 () [cmdShell, cmdPslist] cmdPslist (List.Mem.head _)

theorem dedupByName_cons_mem {S : Type} {c : Command S} {cs : List (Command S)}
    {seen : List String} (hc : c.name ∈ seen) :
    dedupByName (c :: cs) seen = dedupByName cs seen := by
  show (if c.name ∈ seen then dedupByName cs seen else c :: dedupByName cs (c.name :: seen)) =
    dedupByName cs seen
  rw [if_pos hc]

theorem dedupByName_cons_new {S : Type} {c : Command S} {cs : List (Command S)}
    {seen : List String} (hc : c.name ∉ seen) :
    dedupByName (c :: cs) seen = c :: dedupByName cs (c.name :: seen) := by
  show (if c.name ∈ seen then dedupByName cs seen else c :: dedupByName cs (c.name :: seen)) =
    c :: dedupByName cs (c.name :: seen)
  rw [if_neg hc]

theorem dedupByName_names_mem {S : Type} :
    ∀ (l : List (Command S)) (seen : List String) (n : String),
    n ∈ (dedupByName l seen).map Command.name ↔ n ∈ l.map Command.name ∧ n ∉ seen := by
  intro l
  induction l with
  | nil => intro seen n; simp [dedupByName]
  | cons c cs ih =>
    intro seen n
    by_cases hc : c.name ∈ seen
    · rw [dedupByName_cons_mem hc]
      rw [ih seen n]
      simp only [List.map_cons, List.mem_cons]
      constructor
      · exact fun h => ⟨Or.inr h.1, h.2⟩
      · rintro ⟨h1 | h1, h2⟩
        · exact absurd (h1 ▸ hc) h2
        · exact ⟨h1, h2⟩
    · rw [dedupByName_cons_new hc]
      simp only [List.map_cons, List.mem_cons]
      rw [ih (c.name :: seen) n]
      simp only [List.mem_cons]
      constructor
      · rintro (h | ⟨h1, h2⟩)
        · exact ⟨Or.inl h, h ▸ hc⟩
        · exact ⟨Or.inr h1, fun hs => h2 (Or.inr hs)⟩
      · rintro ⟨h1 | h1, h2⟩
        · exact Or.inl h1
        · by_cases hn : n = c.name
          · exact Or.inl hn
          · exact Or.inr ⟨h1, fun hs => hs.elim hn h2⟩

theorem dedupByName_names_nodup {S : Type} :
    ∀ (l : List (Command S)) (seen : List String),
    ((dedupByName l seen).map Command.name).Nodup := by
  intro l
  induction l with
  | nil => intro seen; simp [dedupByName]
  | cons c cs ih =>
    intro seen
    by_cases hc : c.name ∈ seen
    · rw [dedupByName_cons_mem hc]
      exact ih seen
    · rw [dedupByName_cons_new hc]
      simp only [List.map_cons]
      rw [List.nodup_cons]
      refine ⟨?_, ih _⟩
      intro hmem
      exact ((dedupByName_names_mem cs (c.name :: seen) c.name).mp hmem).2
        (List.mem_cons_self _ _)

theorem dedupByName_find {S : Type} :
    ∀ (l : List (Command S)) (seen : List String) (c : Command S),
    c ∈ dedupByName l seen → l.find? (fun d => d.name == c.name) = some c := by
  intro l
  induction l with
  | nil => intro seen c h; simp [dedupByName] at h
  | cons d ds ih =>
    intro seen c h
    by_cases hd : d.name ∈ seen
    · rw [dedupByName_cons_mem hd] at h
      have hcn := (dedupByName_names_mem ds seen c.name).mp (List.mem_map_of_mem Command.name h)
      have hne : d.name ≠ c.name := fun heq => hcn.2 (heq ▸ hd)
      rw [List.find?_cons_of_neg _ (by simp [hne])]
      exact ih seen c h
    · rw [dedupByName_cons_new hd] at h
      rcases List.mem_cons.mp h with he | hm
      · subst he
        rw [List.find?_cons_of_pos _ (by simp)]
      · have hcn := (dedupByName_names_mem ds (d.name :: seen) c.name).mp
          (List.mem_map_of_mem Command.name hm)
        have hne : d.name ≠ c.name := fun heq => hcn.2 (by rw [← heq]; exact List.mem_cons_self _ _)
        rw [List.find?_cons_of_neg _ (by simp [hne])]
        exact ih (d.name :: seen) c hm

theorem dedupByName_sublist {S : Type} :
    ∀ (l : List (Command S)) (seen : List String), (dedupByName l seen).Sublist l := by
  intro l
  induction l with
  | nil => intro seen; simp [dedupByName]
  | cons c cs ih =>
    intro seen
    by_cases hc : c.name ∈ seen
    · rw [dedupByName_cons_mem hc]
      exact (ih seen).cons c
    · rw [dedupByName_cons_new hc]
      exact (ih _).cons₂ c

/-- C7: in phase 2 exactly one sub-parser is created per distinct kept command
name (the created names are duplicate-free yet cover every kept name), the
class whose `args` is invoked for a name is the *first* class with that name
in the sorted enumeration (`find?` over the sorted list), later duplicates are
dropped by a total function (no failure is raised), and sub-parsers are
created in name-sorted order. -/
theorem claim_C7 {S : Type} (sess : S) (classes : List (Command S)) :
    ((subParserCommands sess classes).map Command.name).Nodup
    ∧ (∀ n, n ∈ (subParserCommands sess classes).map Command.name ↔
        n ∈ (keptCommands sess classes).map Command.name)
    ∧ (∀ c, c ∈ subParserCommands sess classes →
        (sortedKept sess classes).find? (fun d => d.name == c.name) = some c)
    ∧ ((subParserCommands sess classes).map Command.name).Sorted (· ≤ ·) := by
  refine ⟨dedupByName_names_nodup _ [], ?_, ?_, ?_⟩
  · intro n
    unfold subParserCommands
    rw [dedupByName_names_mem]
    simp only [List.not_mem_nil, not_false_iff, and_true]
    exact ((List.perm_insertionSort nameLe (keptCommands sess classes)).map Command.name).mem_iff
  · exact fun c hc => dedupByName_find _ [] c hc
  · have hs : (sortedKept sess classes).Sorted nameLe :=
      List.sorted_insertionSort nameLe (keptCommands sess classes)
    have hsub : (subParserCommands sess classes).Sublist (sortedKept sess classes) :=
      dedupByName_sublist _ []
    have hp : (subParserCommands sess classes).Pairwise nameLe := hs.sublist hsub
    exact List.pairwise_map.mpr hp

/-- C7 witness: the theorem applied to a concrete catalogue with two classes
named `"pslist"` and one named `"vadmap"`: the created sub-parser names are
duplicate-free yet still cover the duplicated name `"pslist"`. -/
theorem claim_C7_witness :
    ((subParserCommands () [cmdVadmap, cmdPslist, cmdPslist2]).map Command.name).Nodup
    ∧ ("pslist" ∈ (subParserCommands () [cmdVadmap, cmdPslist, cmdPslist2]).map Command.name ↔
        "pslist" ∈ (keptCommands () [cmdVadmap, cmdPslist, cmdPslist2]).map Command.name) :=
  ⟨(claim_C7 () [cmdVadmap, cmdPslist, cmdPslist2]).1,
   (claim_C7 () [cmdVadmap, cmdPslist, cmdPslist2]).2.1 "pslist"⟩

/-! ## Bundle loader (`LoadPlugins`, src/rekall/args.py:181-231)

`os.access`, `os.path.abspath`, `zipfile.ZipFile(...).namelist()` and the
outcome of `__import__` are the external environment, collected in `Env`.
`os.path.split`/`os.path.splitext` are pure string functions and are modelled
concretely.  `sys.path` is the import search path; `sys.path.insert(0, d)` and
`sys.path.pop(0)` are `pathInsert0`/`pathPop0`.  The trace of path
manipulations and import attempts is recorded as a list of events, and the
error logging as a list of log messages. -/

def PYTHON_EXTENSIONS : List String := [".py", ".pyo", ".pyc"]

/-- The basename part of `os.path.split`: everything after the last `/`. -/
def basenameChars (l : List Char) : List Char :=
  (l.reverse.takeWhile (fun c => c != '/')).reverse

/-- The directory part of `os.path.split` (without the trailing separator). -/
def dirnameChars (l : List Char) : List Char :=
  l.take (l.length - (basenameChars l).length - 1)

/-- `os.path.splitext` on a basename: split at the last dot, except that the
leading dots of the basename never start an extension. -/
def splitextBase (base : List Char) : List Char × List Char :=
  let r := base.reverse
  let t := r.takeWhile (fun c => c != '.')
  match r.drop t.length with
  | [] => (base, [])
  | _ :: pre =>
    if pre.all (fun c => c == '.') then (base, [])
    else (pre.reverse, '.' :: t.reverse)

/-- `os.path.splitext` on a whole path: only the basename is searched for the
extension dot. -/
def splitextChars (l : List Char) : List Char × List Char :=
  let base := basenameChars l
  let p := splitextBase base
  (l.take (l.length - base.length) ++ p.1, p.2)

/-- `os.path.split(path)[0]`. -/
def dirOf (p : String) : String := (dirnameChars p.toList).asString

/-- `os.path.splitext(os.path.split(path)[1])[0]`: the module name of a plain
file. -/
def moduleRootOf (p : String) : String :=
  ((splitextBase (basenameChars p.toList)).1).asString

/-- `os.path.splitext(...)[1]`: the extension of a path or archive entry. -/
def pathExtOf (p : String) : String :=
  ((splitextBase (basenameChars p.toList)).2).asString

/-- `module_name.replace("/", ".").replace("\\", ".")`. -/
def replaceSlashes (l : List Char) : List Char :=
  l.map (fun c => if c = '/' ∨ c = '\\' then '.' else c)

/-- Python `str.strip("\\/")`: drop the characters `\` and `/` from both
ends. -/
def stripSlashes (l : List Char) : List Char :=
  ((l.dropWhile (fun c => c == '\\' || c == '/')).reverse.dropWhile
    (fun c => c == '\\' || c == '/')).reverse

/-- The dotted module identifier imported for one archive entry
(src/rekall/args.py:215-221). -/
def zipEntryModule (name : String) : String :=
  (stripSlashes (replaceSlashes (splitextChars name.toList).1)).asString

/-- The loader's external collaborators: `os.access` (readability),
`os.path.abspath`, the archive entry enumeration, and whether `__import__` of
a given module succeeds. -/
structure Env where
  readable : String → Bool
  abspath : String → String
  namelist : String → List String
  importOk : String → Bool

/-- Trace events: mutations of the import search path and import attempts. -/
inductive Event
  | push (dir : String)
  | attempt (m : String) (ok : Bool)
  | pop
deriving DecidableEq

/-- Logged errors, tagged by kind, carrying the offending path. -/
inductive LogMsg
  | unreadable (path : String)
  | importError (path : String)
  | badExtension (path : String)
deriving DecidableEq

structure LoadResult where
  sysPath : List String
  events : List Event
  logs : List LogMsg
deriving DecidableEq

/-- `sys.path.insert(0, x)`. -/
def pathInsert0 (x : String) (l : List String) : List String := x :: l

/-- `sys.path.pop(0)`. -/
def pathPop0 (l : List String) : List String := l.drop 1

/-- The entry loop over `zfile.namelist()` (src/rekall/args.py:213-224): each
entry with a recognized extension is converted to a dotted identifier
and imported; a failure is caught and logged and the loop continues. -/
def zipLoop (env : Env) (path : String) : List String → List Event × List LogMsg
  | [] => ([], [])
  | entry :: rest =>
    let r := zipLoop env path rest
    if pathExtOf entry ∈ PYTHON_EXTENSIONS then
      let m := zipEntryModule entry
      let ok := env.importOk m
      (Event.attempt m ok :: r.1, if ok then r.2 else LogMsg.importError path :: r.2)
    else r

/-- One iteration of the `LoadPlugins` path loop (src/rekall/args.py:184-230):
skip unreadable paths; for a plain module file push the directory, attempt
the import (logging a failure), and pop in the `finally`; for a `.zip` push the
archive path, run the entry loop, and pop in the `finally`; log and skip any
other extension. -/
def loadOnePath (env : Env) (s : List String) (path0 : String) : LoadResult :=
  if env.readable path0 = true then
    let path := env.abspath path0
    let directory := dirOf path
    let module_name := moduleRootOf path
    let ext := pathExtOf path
    if ext ∈ PYTHON_EXTENSIONS then
      let s1 := pathInsert0 directory s
      let ok := env.importOk module_name
      ⟨pathPop0 s1,
        [Event.push directory, Event.attempt module_name ok, Event.pop],
        if ok then [] else [LogMsg.importError path]⟩
    else if ext = ".zip" then
      let s1 := pathInsert0 path s
      let r := zipLoop env path (env.namelist path)
      ⟨pathPop0 s1, Event.push path :: r.1 ++ [Event.pop], r.2⟩
    else ⟨s, [], [LogMsg.badExtension path]⟩
  else ⟨s, [], [LogMsg.unreadable path0]⟩

/-- `LoadPlugins(paths)`: process every path in order, threading `sys.path`
and accumulating the trace and the logs. -/
def LoadPlugins (env : Env) : List String → List String → LoadResult
  | [], s => ⟨s, [], []⟩
  | p :: ps, s =>
    let r := loadOnePath env s p
    let rest := LoadPlugins env ps r.sysPath
    ⟨rest.sysPath, r.events ++ rest.events, r.logs ++ rest.logs⟩

/-- The per-attempt scoping property claimed by C8: every import attempt in
the trace is immediately preceded by a push and immediately followed by a
pop. -/
def perAttemptScoped : List Event → Bool
  | [] => true
  | Event.push _ :: Event.attempt _ _ :: Event.pop :: rest => perAttemptScoped rest
  | Event.attempt _ _ :: _ => false
  | _ :: rest => perAttemptScoped rest

/-- The module names attempted, in order, extracted from a trace. -/
def attemptedNames (evs : List Event) : List String :=
  evs.filterMap (fun e =>
    match e with
    | Event.attempt m _ => some m
    | _ => none)

theorem attemptedNames_append (l1 l2 : List Event) :
    attemptedNames (l1 ++ l2) = attemptedNames l1 ++ attemptedNames l2 :=
  List.filterMap_append l1 l2 _

theorem loadOnePath_sysPath (env : Env) (s : List String) (p : String) :
    (loadOnePath env s p).sysPath = s := by
  simp only [loadOnePath]
  split_ifs <;> rfl

theorem LoadPlugins_sysPath (env : Env) : ∀ (ps : List String) (s : List String),
    (LoadPlugins env ps s).sysPath = s := by
  intro ps
  induction ps with
  | nil => intro s; rfl
  | cons p rest ih =>
    intro s
    have e : (LoadPlugins env (p :: rest) s).sysPath =
        (LoadPlugins env rest ((loadOnePath env s p).sysPath)).sysPath := rfl
    rw [e, ih, loadOnePath_sysPath]

theorem LoadPlugins_events_cons (env : Env) (p : String) (ps : List String) (s : List String) :
    (LoadPlugins env (p :: ps) s).events =
      (loadOnePath env s p).events ++ (LoadPlugins env ps s).events := by
  have e : (LoadPlugins env (p :: ps) s).events =
      (loadOnePath env s p).events ++
        (LoadPlugins env ps ((loadOnePath env s p).sysPath)).events := rfl
  rw [e, loadOnePath_sysPath]

theorem loadOnePath_eq_unreadable (env : Env) (s : List String) (p : String)
    (h : env.readable p = false) :
    loadOnePath env s p = ⟨s, [], [LogMsg.unreadable p]⟩ := by
  simp only [loadOnePath]
  rw [if_neg (by simp [h])]

theorem loadOnePath_eq_py (env : Env) (s : List String) (p : String)
    (h1 : env.readable p = true) (h2 : pathExtOf (env.abspath p) ∈ PYTHON_EXTENSIONS) :
    loadOnePath env s p =
      ⟨s,
        [Event.push (dirOf (env.abspath p)),
          Event.attempt (moduleRootOf (env.abspath p))
            (env.importOk (moduleRootOf (env.abspath p))),
          Event.pop],
        if env.importOk (moduleRootOf (env.abspath p)) then []
        else [LogMsg.importError (env.abspath p)]⟩ := by
  simp only [loadOnePath]
  rw [if_pos h1, if_pos h2]
  rfl

theorem loadOnePath_eq_zip (env : Env) (s : List String) (p : String)
    (h1 : env.readable p = true) (h2 : pathExtOf (env.abspath p) = ".zip") :
    loadOnePath env s p =
      ⟨s,
        Event.push (env.abspath p) ::
          (zipLoop env (env.abspath p) (env.namelist (env.abspath p))).1 ++ [Event.pop],
        (zipLoop env (env.abspath p) (env.namelist (env.abspath p))).2⟩ := by
  simp only [loadOnePath]
  rw [if_pos h1, if_neg (by rw [h2]; decide), if_pos h2]
  rfl

theorem loadOnePath_eq_other (env : Env) (s : List String) (p : String)
    (h1 : env.readable p = true) (h2 : pathExtOf (env.abspath p) ∉ PYTHON_EXTENSIONS)
    (h3 : pathExtOf (env.abspath p) ≠ ".zip") :
    loadOnePath env s p = ⟨s, [], [LogMsg.badExtension (env.abspath p)]⟩ := by
  simp only [loadOnePath]
  rw [if_pos h1, if_neg h2, if_neg h3]

theorem zipLoop_fst_cons_py {env : Env} {path entry : String} {rest : List String}
    (hext : pathExtOf entry ∈ PYTHON_EXTENSIONS) :
    (zipLoop env path (entry :: rest)).1 =
      Event.attempt (zipEntryModule entry) (env.importOk (zipEntryModule entry)) ::
        (zipLoop env path rest).1 := by
  simp only [zipLoop]
  rw [if_pos hext]

theorem zipLoop_snd_cons_py {env : Env} {path entry : String} {rest : List String}
    (hext : pathExtOf entry ∈ PYTHON_EXTENSIONS) :
    (zipLoop env path (entry :: rest)).2 =
      if env.importOk (zipEntryModule entry) then (zipLoop env path rest).2
      else LogMsg.importError path :: (zipLoop env path rest).2 := by
  simp only [zipLoop]
  rw [if_pos hext]

theorem zipLoop_cons_skip {env : Env} {path entry : String} {rest : List String}
    (hext : pathExtOf entry ∉ PYTHON_EXTENSIONS) :
    zipLoop env path (entry :: rest) = zipLoop env path rest := by
  simp only [zipLoop]
  rw [if_neg hext]

theorem zipLoop_attempted_indep (env env' : Env) (path path' : String) :
    ∀ (names : List String),
    attemptedNames (zipLoop env path names).1 = attemptedNames (zipLoop env' path' names).1 := by
  intro names
  induction names with
  | nil => rfl
  | cons entry rest ih =>
    by_cases hext : pathExtOf entry ∈ PYTHON_EXTENSIONS
    · rw [zipLoop_fst_cons_py hext, zipLoop_fst_cons_py hext]
      show zipEntryModule entry :: attemptedNames (zipLoop env path rest).1 =
        zipEntryModule entry :: attemptedNames (zipLoop env' path' rest).1
      rw [ih]
    · rw [zipLoop_cons_skip hext, zipLoop_cons_skip hext, ih]

theorem zipLoop_mem_attempt {env : Env} {path entry : String} :
    ∀ (names : List String), entry ∈ names → pathExtOf entry ∈ PYTHON_EXTENSIONS →
    Event.attempt (zipEntryModule entry) (env.importOk (zipEntryModule entry)) ∈
      (zipLoop env path names).1 := by
  intro names
  induction names with
  | nil => intro h _; cases h
  | cons e rest ih =>
    intro hm hext
    rcases List.mem_cons.mp hm with he | hm'
    · subst he
      rw [zipLoop_fst_cons_py hext]
      exact List.mem_cons_self _ _
    · by_cases hee : pathExtOf e ∈ PYTHON_EXTENSIONS
      · rw [zipLoop_fst_cons_py hee]
        exact List.mem_cons_of_mem _ (ih hm' hext)
      · have e2 : (zipLoop env path (e :: rest)).1 = (zipLoop env path rest).1 := by
          rw [zipLoop_cons_skip hee]
        rw [e2]
        exact ih hm' hext

theorem zipLoop_mem_log {env : Env} {path entry : String} :
    ∀ (names : List String), entry ∈ names → pathExtOf entry ∈ PYTHON_EXTENSIONS →
    env.importOk (zipEntryModule entry) = false →
    LogMsg.importError path ∈ (zipLoop env path names).2 := by
  intro names
  induction names with
  | nil => intro h _ _; cases h
  | cons e rest ih =>
    intro hm hext hok
    rcases List.mem_cons.mp hm with he | hm'
    · subst he
      rw [zipLoop_snd_cons_py hext, hok]
      show LogMsg.importError path ∈
        (if (false : Bool) then (zipLoop env path rest).2
          else LogMsg.importError path :: (zipLoop env path rest).2)
      rw [if_neg (by decide)]
      exact List.mem_cons_self _ _
    · by_cases hee : pathExtOf e ∈ PYTHON_EXTENSIONS
      · rw [zipLoop_snd_cons_py hee]
        by_cases hoke : env.importOk (zipEntryModule e) = true
        · rw [if_pos hoke]
          exact ih hm' hext hok
        · rw [if_neg hoke]
          exact List.mem_cons_of_mem _ (ih hm' hext hok)
      · have e2 : (zipLoop env path (e :: rest)).2 = (zipLoop env path rest).2 := by
          rw [zipLoop_cons_skip hee]
        rw [e2]
        exact ih hm' hext hok

theorem loadOnePath_attempted_indep_core (r : String → Bool) (a : String → String)
    (nl : String → List String) (io io' : String → Bool) (s s' : List String) (p : String) :
    attemptedNames (loadOnePath ⟨r, a, nl, io⟩ s p).events =
      attemptedNames (loadOnePath ⟨r, a, nl, io'⟩ s' p).events := by
  by_cases h1 : r p = true
  · by_cases h2 : pathExtOf (a p) ∈ PYTHON_EXTENSIONS
    · rw [loadOnePath_eq_py ⟨r, a, nl, io⟩ s p h1 h2,
        loadOnePath_eq_py ⟨r, a, nl, io'⟩ s' p h1 h2]
      rfl
    · by_cases h3 : pathExtOf (a p) = ".zip"
      · rw [loadOnePath_eq_zip ⟨r, a, nl, io⟩ s p h1 h3,
          loadOnePath_eq_zip ⟨r, a, nl, io'⟩ s' p h1 h3]
        show attemptedNames (Event.push (a p) ::
            (zipLoop ⟨r, a, nl, io⟩ (a p) (nl (a p))).1 ++ [Event.pop]) =
          attemptedNames (Event.push (a p) ::
            (zipLoop ⟨r, a, nl, io'⟩ (a p) (nl (a p))).1 ++ [Event.pop])
        show attemptedNames ((zipLoop ⟨r, a, nl, io⟩ (a p) (nl (a p))).1 ++ [Event.pop]) =
          attemptedNames ((zipLoop ⟨r, a, nl, io'⟩ (a p) (nl (a p))).1 ++ [Event.pop])
        rw [attemptedNames_append, attemptedNames_append,
          zipLoop_attempted_indep ⟨r, a, nl, io⟩ ⟨r, a, nl, io'⟩ (a p) (a p) (nl (a p))]
      · rw [loadOnePath_eq_other ⟨r, a, nl, io⟩ s p h1 h2 h3,
          loadOnePath_eq_other ⟨r, a, nl, io'⟩ s' p h1 h2 h3]
  · have h1b : r p = false := by
      cases hb : r p
      · rfl
      · exact absurd hb h1
    rw [loadOnePath_eq_unreadable ⟨r, a, nl, io⟩ s p h1b,
      loadOnePath_eq_unreadable ⟨r, a, nl, io'⟩ s' p h1b]

theorem loadOnePath_attempted_indep (env env' : Env) (s s' : List String) (p : String)
    (hr : env.readable = env'.readable) (ha : env.abspath = env'.abspath)
    (hn : env.namelist = env'.namelist) :
    attemptedNames (loadOnePath env s p).events =
      attemptedNames (loadOnePath env' s' p).events := by
  obtain ⟨r, a, nl, io⟩ := env
  obtain ⟨r', a', nl', io'⟩ := env'
  have hr2 : r = r' := hr
  have ha2 : a = a' := ha
  have hn2 : nl = nl' := hn
  subst hr2
  subst ha2
  subst hn2
  exact loadOnePath_attempted_indep_core r a nl io io' s s' p

def envZip : Env := ⟨fun _ => true, fun p => p, fun _ => ["a.py", "b.py"], fun _ => true⟩

/-- C8 counterexample: for an archive bundle with two entries the containing
location is *not* removed immediately after each import attempt — the archive
path is pushed once before the entry loop and popped once after it
(src/rekall/args.py:210-227), so the trace `push, attempt, attempt, pop`
violates the claimed per-attempt scoping. -/
theorem claim_C8_counterexample :
    perAttemptScoped ((LoadPlugins envZip ["bundle.zip"] ["orig"]).events) = false := rfl

/-- C8 (amended): the containing location is prepended to the front of
the import search path before the import attempt(s) of a path and removed after
them, whether the imports succeed or raise — immediately around the single
attempt for a plain module file, but around the *whole entry loop* for an
archive — so the import search path is unchanged (same contents and order)
after the loader processes each path, and after the whole run.  (The original
claim asserted the push/pop bracketed every individual import attempt; the
archive counterexample forces the weaker per-path scoping.) -/
theorem claim_C8 :
    (∀ (env : Env) (s : List String) (p : String), (loadOnePath env s p).sysPath = s)
    ∧ (∀ (env : Env) (ps : List String) (s : List String), (LoadPlugins env ps s).sysPath = s)
    ∧ (∀ (env : Env) (s : List String) (p : String),
        env.readable p = true → pathExtOf (env.abspath p) ∈ PYTHON_EXTENSIONS →
        (loadOnePath env s p).events =
          [Event.push (dirOf (env.abspath p)),
            Event.attempt (moduleRootOf (env.abspath p))
              (env.importOk (moduleRootOf (env.abspath p))),
            Event.pop]) :=
  ⟨fun env s p => loadOnePath_sysPath env s p,
   fun env ps s => LoadPlugins_sysPath env ps s,
   fun env s p h1 h2 => by rw [loadOnePath_eq_py env s p h1 h2]⟩

def envPy : Env := ⟨fun _ => true, fun p => p, fun _ => [], fun _ => true⟩

/-- C8 witness: a plain module file `dir/mod.py` produces exactly the scoped
trace push-attempt-pop, and the search path is restored. -/
theorem claim_C8_witness :
    (loadOnePath envPy ["existing"] "dir/mod.py").events =
      [Event.push "dir", Event.attempt "mod" true, Event.pop]
    ∧ (loadOnePath envPy ["existing"] "dir/mod.py").sysPath = ["existing"] :=
  ⟨claim_C8.2.2 envPy ["existing"] "dir/mod.py" rfl (by decide),
   claim_C8.1 envPy ["existing"] "dir/mod.py"⟩

/-- C9: (1) the sequence of module names the loader attempts to import is the
same for any two environments that agree on readability, path resolution and
archive contents, however the imports succeed or fail — so one failing import
never suppresses a later attempt, in the same archive or in a later path;
(2) inside an archive, every entry with a recognized code-unit extension is
attempted regardless of the other entries' outcomes, and a failing entry is
logged with the archive path; (3) the trace of a path list is the
concatenation of the per-path traces, so a failing path never prevents later
paths from being processed. -/
theorem claim_C9 :
    (∀ (env env' : Env) (ps : List String) (s s' : List String),
      env.readable = env'.readable → env.abspath = env'.abspath →
      env.namelist = env'.namelist →
      attemptedNames (LoadPlugins env ps s).events =
        attemptedNames (LoadPlugins env' ps s').events)
    ∧ (∀ (env : Env) (s : List String) (p entry : String),
      env.readable p = true → pathExtOf (env.abspath p) = ".zip" →
      entry ∈ env.namelist (env.abspath p) → pathExtOf entry ∈ PYTHON_EXTENSIONS →
      Event.attempt (zipEntryModule entry) (env.importOk (zipEntryModule entry)) ∈
          (loadOnePath env s p).events
        ∧ (env.importOk (zipEntryModule entry) = false →
            LogMsg.importError (env.abspath p) ∈ (loadOnePath env s p).logs))
    ∧ (∀ (env : Env) (p : String) (ps : List String) (s : List String),
      (LoadPlugins env (p :: ps) s).events =
        (loadOnePath env s p).events ++ (LoadPlugins env ps s).events) := by
  refine ⟨?_, ?_, fun env p ps s => LoadPlugins_events_cons env p ps s⟩
  · intro env env' ps s s' hr ha hn
    induction ps generalizing s s' with
    | nil => rfl
    | cons p rest ih =>
      rw [LoadPlugins_events_cons, LoadPlugins_events_cons, attemptedNames_append,
        attemptedNames_append, loadOnePath_attempted_indep env env' s s' p hr ha hn, ih]
  · intro env s p entry h1 h2 hm hext
    rw [loadOnePath_eq_zip env s p h1 h2]
    constructor
    · exact List.mem_cons_of_mem _
        (List.mem_append_left _ (zipLoop_mem_attempt _ hm hext))
    · intro hok
      exact zipLoop_mem_log _ hm hext hok

def envIso : Env := ⟨fun _ => true, fun p => p, fun _ => ["bad.py", "good.py"], fun m => m != "bad"⟩

/-- C9 witness: in an archive whose first entry `bad.py` fails to import, the
later entry `good.py` is still attempted, and the failure is logged with the
archive path. -/
theorem claim_C9_witness :
    Event.attempt (zipEntryModule "good.py") (envIso.importOk (zipEntryModule "good.py")) ∈
      (loadOnePath envIso [] "bundle.zip").events
    ∧ LogMsg.importError (envIso.abspath "bundle.zip") ∈
      (loadOnePath envIso [] "bundle.zip").logs :=
  ⟨(claim_C9.2.1 envIso [] "bundle.zip" "good.py" rfl (by decide) (by decide) (by decide)).1,
   (claim_C9.2.1 envIso [] "bundle.zip" "bad.py" rfl (by decide) (by decide) (by decide)).2
     (by decide)⟩
